import Mathlib

/-!
# PokeGuide: the fetch, cache and batch-loading core of `script.js`

A shallow embedding of the data-fetching layer of the page script:

* the two session caches `pokemonListCache` and `pokemonFullCache` (JavaScript `Map`s keyed by
  name) are functions `String → Option _`;
* the network is an oracle: every call receives the responses its successive `fetch` attempts
  will get (`none` is a rejected `fetch` or `json()`, `some d` a parsed body that follows the
  schema of the API);
* `console` output is dropped; the network requests and the `setTimeout` waits are recorded in
  the session log.
-/

namespace PokeGuide

/-! ## Data model -/

/-- Body of the detail resource `/pokemon/{name}`, restricted to the fields the script reads.
`sprite` is `sprites.front_default` (which the API may leave `null`), `primaryType` is
`types[0].type.name` and `otherTypes` the names of `types[1..]`. -/
structure PokemonData where
  name : String
  id : Nat
  sprite : Option String
  primaryType : String
  otherTypes : List String
  height : Nat
  weight : Nat
  deriving DecidableEq

/-- The object literal `{ name, sprite, type }` stored in `pokemonListCache`. -/
structure MinimalData where
  name : String
  sprite : Option String
  type : String
  deriving DecidableEq

/-- One element of `data.results` of the catalog index. -/
structure Entry where
  name : String
  url : String
  deriving DecidableEq

/-- Observable effects of the fetch routines: a network request and a `setTimeout` wait. -/
inductive Event where
  | fetch (url : String)
  | wait (ms : Nat)
  deriving DecidableEq

/-- The process-wide state: both caches and the log of requests and waits so far. -/
structure Session where
  pokemonListCache : String → Option MinimalData
  pokemonFullCache : String → Option PokemonData
  log : List Event

/-- State at page load: `new Map()` twice, nothing requested yet. -/
def Session.initial : Session :=
  { pokemonListCache := fun _ => none, pokemonFullCache := fun _ => none, log := [] }

/-- `Map.prototype.set`: the entry for `key` is created or replaced. -/
def mapSet {β : Type} (m : String → Option β) (key : String) (value : β) : String → Option β :=
  fun k => if k = key then some value else m k

/-- The projection built at lines 44-48 and 78-82. -/
def minimalOf (data : PokemonData) : MinimalData :=
  { name := data.name, sprite := data.sprite, type := data.primaryType }

/-- The default value of the `retries` parameter of the four fetch routines. -/
def defaultRetries : Nat := 3

def detailUrl (name : String) : String := "https://pokeapi.co/api/v2/pokemon/" ++ name

def speciesUrl (name : String) : String := "https://pokeapi.co/api/v2/pokemon-species/" ++ name

/-! ## The retry loop -/

/-- How the loop `while (attempt < retries) { try ... catch ... }` ends. -/
inductive Attempted (α : Type) where
  /-- The `try` block ran to its `return`. -/
  | resolved (data : α)
  /-- The `catch` block reached `attempt === retries`. -/
  | exhausted
  /-- The guard was false on entry: control falls off the end of the function. -/
  | skipped
  deriving DecidableEq

/-- The loop shared, textually, by `fetchPokemonMinimalDetailsBatch` (lines 39-61),
`fetchPokemonDetails` (72-93), `fetchPokemonSpecies` (98-113) and `fetchEvolutionChain`
(118-133). `attempt` is the loop variable and `resp attempt` the outcome of the `fetch` issued
while it has that value. The first argument `left` is `retries - attempt`: the guard
`attempt < retries` holds exactly when it is a successor. The result carries the events of the
loop in program order. -/
def retryLoop {α : Type} (url : String) (resp : Nat → Option α) (retries : Nat) :
    Nat → Nat → Attempted α × List Event
  | 0, _ => (.skipped, [])
  | left + 1, attempt =>
    match resp attempt with
    | some data => (.resolved data, [.fetch url])
    | none =>
      let attempt := attempt + 1
      if attempt = retries then (.exhausted, [.fetch url])
      else
        let rest := retryLoop url resp retries left attempt
        (rest.1, .fetch url :: .wait (1000 * attempt) :: rest.2)

/-- The same loop written with its guard `attempt < retries`, run for at most `rounds`
iterations (`none` when they do not suffice). -/
def retryRounds {α : Type} (url : String) (resp : Nat → Option α) (retries : Nat) :
    Nat → Nat → Option (Attempted α × List Event)
  | 0, _ => none
  | rounds + 1, attempt =>
    if attempt < retries then
      match resp attempt with
      | some data => some (.resolved data, [.fetch url])
      | none =>
        let attempt := attempt + 1
        if attempt = retries then some (.exhausted, [.fetch url])
        else
          (retryRounds url resp retries rounds attempt).map
            (fun rest => (rest.1, .fetch url :: .wait (1000 * attempt) :: rest.2))
    else some (.skipped, [])

/-- What an `async` function hands to its caller. -/
inductive Returned (α : Type) where
  | value (v : α)
  | undefined
  | thrown
  deriving DecidableEq

/-! ## `fetchPokemonDetails`, `fetchPokemonSpecies`, `fetchEvolutionChain` -/

/-- Lines 68-94, for a call made when the caches were `snapshot`: the test
`pokemonFullCache.has(name)` runs synchronously at the call, the writes of lines 77-82 land
later, on the running session `s`. -/
def fetchPokemonDetailsAt (snapshot s : Session) (name : String)
    (resp : Nat → Option PokemonData) (retries : Nat) : Returned PokemonData × Session :=
  match snapshot.pokemonFullCache name with
  | some data => (.value data, s)
  | none =>
    match retryLoop (detailUrl name) resp retries retries 0 with
    | (.resolved data, events) =>
      (.value data,
        { pokemonListCache := mapSet s.pokemonListCache name (minimalOf data),
          pokemonFullCache := mapSet s.pokemonFullCache name data,
          log := s.log ++ events })
    | (.exhausted, events) => (.thrown, { s with log := s.log ++ events })
    | (.skipped, events) => (.undefined, { s with log := s.log ++ events })

/-- Lines 68-94, for a call that is awaited on its own. -/
def fetchPokemonDetails (s : Session) (name : String) (resp : Nat → Option PokemonData)
    (retries : Nat) : Returned PokemonData × Session :=
  fetchPokemonDetailsAt s s name resp retries

/-- Body of the species resource: the script reads `evolution_chain.url` only. -/
structure SpeciesData where
  evolutionChainUrl : String
  deriving DecidableEq

/-- A node of the evolution-chain resource: `species.name` and `evolves_to`. -/
inductive ChainNode where
  | mk (species : String) (evolves_to : List ChainNode)

/-- Body of the evolution-chain resource. -/
structure EvolutionData where
  chain : ChainNode

/-- Lines 97-114. -/
def fetchPokemonSpecies (s : Session) (name : String) (resp : Nat → Option SpeciesData)
    (retries : Nat) : Returned SpeciesData × Session :=
  match retryLoop (speciesUrl name) resp retries retries 0 with
  | (.resolved data, events) => (.value data, { s with log := s.log ++ events })
  | (.exhausted, events) => (.thrown, { s with log := s.log ++ events })
  | (.skipped, events) => (.undefined, { s with log := s.log ++ events })

/-- Lines 117-134. -/
def fetchEvolutionChain (s : Session) (url : String) (resp : Nat → Option EvolutionData)
    (retries : Nat) : Returned EvolutionData × Session :=
  match retryLoop url resp retries retries 0 with
  | (.resolved data, events) => (.value data, { s with log := s.log ++ events })
  | (.exhausted, events) => (.thrown, { s with log := s.log ++ events })
  | (.skipped, events) => (.undefined, { s with log := s.log ++ events })

/-! ## `fetchPokemonMinimalDetailsBatch` -/

/-- What one callback of `names.map(async (name) => ...)` resolves to. -/
inductive Resolved where
  | record (m : MinimalData)
  | null
  | undefined
  deriving DecidableEq

/-- One callback of `names.map` (lines 35-62). Every callback runs synchronously up to its first
`await`, so the test `pokemonListCache.has(name)` of every callback reads the caches as they
were when the batch was called: that is `snapshot`. The writes of lines 49-50 land later, on the
running session `s`. -/
def batchCallback (snapshot : Session) (name : String) (resp : Nat → Option PokemonData)
    (retries : Nat) (s : Session) : Resolved × Session :=
  match snapshot.pokemonListCache name with
  | some m => (.record m, s)
  | none =>
    match retryLoop (detailUrl name) resp retries retries 0 with
    | (.resolved data, events) =>
      (.record (minimalOf data),
        { pokemonListCache := mapSet s.pokemonListCache name (minimalOf data),
          pokemonFullCache := mapSet s.pokemonFullCache name data,
          log := s.log ++ events })
    | (.exhausted, events) => (.null, { s with log := s.log ++ events })
    | (.skipped, events) => (.undefined, { s with log := s.log ++ events })

/-- The array `fetchPromises` awaited by `Promise.all`: one result per input position, in input
order. `net i` answers the attempts of the callback at position `i`. The callbacks run
concurrently; their effects are recorded here in input order (the order in which they complete
belongs to the network and only shows when a name occurs twice). -/
def batchCallbacks (snapshot : Session) (net : Nat → Nat → Option PokemonData) (retries : Nat) :
    List String → Nat → Session → List Resolved × Session
  | [], _, s => ([], s)
  | name :: rest, i, s =>
    let first := batchCallback snapshot name (net i) retries s
    let others := batchCallbacks snapshot net retries rest (i + 1) first.2
    (first.1 :: others.1, others.2)

/-- Lines 34-65. -/
def fetchPokemonMinimalDetailsBatch (s : Session) (names : List String)
    (net : Nat → Nat → Option PokemonData) (retries : Nat) : List Resolved × Session :=
  let results := batchCallbacks s net retries names 0 s
  (results.1.filter (fun result => result ≠ .null), results.2)

/-! ## `loadPokemonBatch` -/

/-- The card appended to the list: `primaryType` is the CSS class and `sprite` the image source,
both read from the resolved record; `pokemon` is the catalog entry whose name is used for the
`alt` text, the heading and the click handler. -/
structure Card where
  primaryType : String
  sprite : Option String
  pokemon : Entry
  deriving DecidableEq

/-- The card lines 147-161 build from a record and a catalog entry. -/
def cardOf (pokemonDetails : MinimalData) (pokemon : Entry) : Card :=
  { primaryType := pokemonDetails.type, sprite := pokemonDetails.sprite, pokemon := pokemon }

/-- The loop `pokemonDetailsBatch.forEach((pokemonDetails, index) => ...)`, lines 145-162:
the cards appended, and whether the loop ran to its end. Reading a property of `undefined`
(`pokemonDetails.type`, `pokemon.name`) raises a `TypeError`, which stops the loop before the
card of that round is appended. -/
def renderCards (batch : List Entry) : List Resolved → Nat → List Card × Bool
  | [], _ => ([], true)
  | pokemonDetails :: rest, index =>
    match pokemonDetails, batch[index]? with
    | .record m, some pokemon =>
      let later := renderCards batch rest (index + 1)
      (cardOf m pokemon :: later.1, later.2)
    | _, _ => ([], false)

/-- Outcome of `loadPokemonBatch`: what it returns, the cards appended to the list, the session
afterwards, and the names handed to `fetchPokemonMinimalDetailsBatch`. -/
structure Loaded where
  returned : Returned Nat
  cards : List Card
  session : Session
  names : List String

/-- Lines 137-165. `pokemonList.slice(startIndex, startIndex + batchSize)` is `drop` then
`take`. -/
def loadPokemonBatch (s : Session) (pokemonList : List Entry) (startIndex batchSize : Nat)
    (net : Nat → Nat → Option PokemonData) : Loaded :=
  let batch := (pokemonList.drop startIndex).take batchSize
  let names := batch.map (fun pokemon => pokemon.name)
  let pokemonDetailsBatch := fetchPokemonMinimalDetailsBatch s names net defaultRetries
  let rendered := renderCards batch pokemonDetailsBatch.1 0
  { returned := if rendered.2 then .value (startIndex + batch.length) else .thrown,
    cards := rendered.1,
    session := pokemonDetailsBatch.2,
    names := names }

/-! ## `displayPokemonList` -/

/-- The variables of `displayPokemonList` that outlive its first load: `loadedCount`,
`isLoading`, the session, the cards in the list, and two counters of the loads made so far (the
names each load asked for, and how many loads there were). -/
structure ListState where
  loadedCount : Nat
  isLoading : Bool
  session : Session
  cards : List Card
  requested : List (List String)
  loads : Nat

/-- Lines 185-191: the first load, of 6 entries. `nets k` is the network as seen by the load
number `k`. An exception here leaves `displayPokemonList` before any handler is installed. -/
def firstLoad (s : Session) (pokemonList : List Entry)
    (nets : Nat → Nat → Nat → Option PokemonData) : Returned ListState :=
  let loaded := loadPokemonBatch s pokemonList 0 6 (nets 0)
  match loaded.returned with
  | .value loadedCount =>
    .value { loadedCount := loadedCount, isLoading := false, session := loaded.session,
             cards := loaded.cards, requested := [loaded.names], loads := 1 }
  | _ => .thrown

/-- The guarded load shared by the observer callback (lines 216-245) and the click handler
(lines 255-280), with `batchSize = 20`. An event that arrives while a load is in flight finds
`isLoading` set and does nothing; the events of the model are the others, each handled to its
end, so `isLoading` is back to `false` when the handler returns. A `catch` leaves `loadedCount`
as it was. -/
def loadMore (pokemonList : List Entry) (nets : Nat → Nat → Nat → Option PokemonData)
    (st : ListState) : ListState :=
  if st.loadedCount < pokemonList.length && !st.isLoading then
    let loaded := loadPokemonBatch st.session pokemonList st.loadedCount 20 (nets st.loads)
    { loadedCount := match loaded.returned with
        | .value loadedCount => loadedCount
        | _ => st.loadedCount,
      isLoading := false,
      session := loaded.session,
      cards := st.cards ++ loaded.cards,
      requested := st.requested ++ [loaded.names],
      loads := st.loads + 1 }
  else st

/-- The two events that ask for more: the sentinel reported by the `IntersectionObserver`, and
a click on the button. -/
inductive Trigger where
  | sentinel (isIntersecting : Bool)
  | click

/-- Whether the handler of the event gets as far as its guard on `loadedCount`. -/
def Trigger.asks : Trigger → Bool
  | .sentinel isIntersecting => isIntersecting
  | .click => true

def handleTrigger (pokemonList : List Entry) (nets : Nat → Nat → Nat → Option PokemonData)
    (st : ListState) (t : Trigger) : ListState :=
  if t.asks then loadMore pokemonList nets st else st

/-- Lines 168-282 once the catalog `pokemonList` has been fetched: the first load, then the
handlers run by the events that follow. -/
def displayPokemonList (s : Session) (pokemonList : List Entry)
    (nets : Nat → Nat → Nat → Option PokemonData) (events : List Trigger) : Returned ListState :=
  match firstLoad s pokemonList nets with
  | .value st => .value (events.foldl (handleTrigger pokemonList nets) st)
  | other => other

/-! ## `displayPokemonDetails` -/

/-- The walk of lines 317-321: `evolutions.push(current.species.name)` then
`current = current.evolves_to[0]`, until `current` is `undefined`. -/
def walkChain : ChainNode → List String
  | .mk species [] => [species]
  | .mk species (next :: _) => species :: walkChain next

/-- The page the script runs in, as far as `displayPokemonDetails` reads it: whether
`getElementById` finds `pokemonModal` and `modalContent`. The markup of the page is not part of
the script. -/
structure Page where
  pokemonModal : Bool
  modalContent : Bool

/-- The network as seen by one run of `displayPokemonDetails`: the attempts for the detail,
species and evolution-chain resources, and for the detail of the `i`-th evolution. -/
structure DetailNet where
  details : Nat → Option PokemonData
  species : Nat → Option SpeciesData
  chain : Nat → Option EvolutionData
  evolution : Nat → Nat → Option PokemonData

/-- What the template of lines 336-382 is filled with. -/
structure ModalView where
  pokemonDetails : PokemonData
  evolutions : List String
  evolutionDetails : List (String × Option String)

/-- How a run of `displayPokemonDetails` ends. -/
inductive ModalResult where
  /-- Lines 290-292: `alert` and `return`. -/
  | alerted (name : String)
  /-- Lines 306-309: an element is missing. -/
  | noModal
  /-- Line 384: the modal is filled and displayed. -/
  | shown (view : ModalView)
  /-- A `TypeError` leaves the function. -/
  | thrown

/-- Lines 295-301: the species fetch, then the chain it points to; any exception is caught and
leaves `evolutionData` undefined. -/
def fetchEvolutionData (s : Session) (name : String) (net : DetailNet) :
    Option EvolutionData × Session :=
  match fetchPokemonSpecies s name net.species defaultRetries with
  | (.value speciesData, s1) =>
    match fetchEvolutionChain s1 speciesData.evolutionChainUrl net.chain defaultRetries with
    | (.value evolutionData, s2) => (some evolutionData, s2)
    | (_, s2) => (none, s2)
  | (_, s1) => (none, s1)

/-- Lines 324-334: the callbacks of `evolutions.map`, awaited by `Promise.all`. Each calls
`fetchPokemonDetails` at once, so every cache test reads `snapshot`. -/
def evolutionCallbacks (snapshot : Session) (net : Nat → Nat → Option PokemonData) :
    List String → Nat → Session → List (String × Option String) × Session
  | [], _, s => ([], s)
  | evoName :: rest, i, s =>
    let first := fetchPokemonDetailsAt snapshot s evoName (net i) defaultRetries
    let others := evolutionCallbacks snapshot net rest (i + 1) first.2
    let sprite := match first.1 with
      | .value details => details.sprite
      | _ => none
    ((evoName, sprite) :: others.1, others.2)

/-- Lines 285-384. -/
def displayPokemonDetails (page : Page) (s : Session) (name : String) (net : DetailNet) :
    ModalResult × Session :=
  match fetchPokemonDetails s name net.details defaultRetries with
  | (.thrown, s1) => (.alerted name, s1)
  | (fetched, s1) =>
    let evolutionData := fetchEvolutionData s1 name net
    let s2 := evolutionData.2
    if !page.pokemonModal || !page.modalContent then (.noModal, s2)
    else
      match fetched with
      | .value pokemonDetails =>
        let evolutions := match evolutionData.1 with
          | some data => walkChain data.chain
          | none => []
        let evolutionDetails := evolutionCallbacks s2 net.evolution evolutions 0 s2
        (.shown { pokemonDetails := pokemonDetails, evolutions := evolutions,
                  evolutionDetails := evolutionDetails.1 }, evolutionDetails.2)
      | _ => (.thrown, s2)

/-! ## The search handler -/

/-- Whether `pattern` starts `text`. -/
def startsWithChars : List Char → List Char → Bool
  | _, [] => true
  | [], _ :: _ => false
  | c :: text, p :: pattern => c == p && startsWithChars text pattern

/-- The search of `String.prototype.includes`: try every position of `text` from the left. -/
def includesChars : List Char → List Char → Bool
  | [], pattern => startsWithChars [] pattern
  | c :: text, pattern => startsWithChars (c :: text) pattern || includesChars text pattern

/-- `name.includes(searchTerm)`, on strings taken as sequences of characters. -/
def includes (name searchTerm : String) : Bool :=
  includesChars name.data searchTerm.data

/-- Lines 429-431: `filteredPokemon`, for the text `value` of the search box and the catalog
`pokemonList` returned by `fetchPokemonList`. The built-in `String.prototype.toLowerCase` is a
parameter. -/
def filteredPokemon (toLowerCase : String → String) (pokemonList : List Entry)
    (value : String) : List Entry :=
  let searchTerm := toLowerCase value
  pokemonList.filter (fun pokemon => includes pokemon.name searchTerm)

/-! ## Specification-side definitions -/

/-- The first parsed body among the responses to attempts `0 .. retries - 1`, if any. -/
def resolvedWithin {α : Type} (resp : Nat → Option α) (retries : Nat) : Option α :=
  (List.range retries).findSome? resp

/-- The records the contract of the batch fetcher describes, for the caches `cache` at the time
of the call: each input name, in input order, gives its cached record if it has one, else the
projection of the first body fetched within `retries` attempts, else nothing. -/
def expectedRecords (cache : String → Option MinimalData) (net : Nat → Nat → Option PokemonData)
    (retries : Nat) (names : List String) (first : Nat) : List MinimalData :=
  (names.enumFrom first).filterMap (fun p =>
    match cache p.2 with
    | some m => some m
    | none => (resolvedWithin (net p.1) retries).map minimalOf)

/-- The number of network requests among `events`. -/
def requestsIn : List Event → Nat
  | [] => 0
  | .fetch _ :: rest => requestsIn rest + 1
  | .wait _ :: rest => requestsIn rest

/-- The waits among `events`, in order, in milliseconds. -/
def waitsIn : List Event → List Nat
  | [] => []
  | .fetch _ :: rest => waitsIn rest
  | .wait ms :: rest => ms :: waitsIn rest

/-- The events the retry policy prescribes against a source that always fails, for
`n ≥ 1` attempts: a request, a wait of `1000 * k` ms after the `k`-th failure for `k < n`, and
nothing after the last request. `failed` is the number of failures so far. -/
def exhaustedTrace (url : String) : Nat → Nat → List Event
  | 0, _ => []
  | 1, _ => [.fetch url]
  | n + 2, failed => .fetch url :: .wait (1000 * (failed + 1)) :: exhaustedTrace url (n + 1) (failed + 1)

/-- A call of one of the two resolvers that write the caches, with the network it meets. -/
inductive Call where
  | batch (names : List String) (net : Nat → Nat → Option PokemonData) (retries : Nat)
  | details (name : String) (resp : Nat → Option PokemonData) (retries : Nat)

/-- The session after a call that is awaited before anything else is called: its cache test and
its writes meet the same session. -/
def Call.run (s : Session) : Call → Session
  | .batch names net retries => (fetchPokemonMinimalDetailsBatch s names net retries).2
  | .details name resp retries => (fetchPokemonDetails s name resp retries).2

/-- The session after a sequence of calls, each awaited before the next is made. These are the
runs in which no call is in flight when another is made; the others are built with
`Call.runAt`. -/
def runCalls (s : Session) (calls : List Call) : Session :=
  calls.foldl Call.run s

/-- The call, made in session `s`, does not find `n` in the cache it tests and one of its
fetches of `n` succeeds within its attempts, with body `v`. -/
def Call.fetched (s : Session) (n : String) (v : PokemonData) : Call → Prop
  | .batch names net retries =>
    s.pokemonListCache n = none ∧ ∃ i, names[i]? = some n ∧ resolvedWithin (net i) retries = some v
  | .details name resp retries =>
    s.pokemonFullCache n = none ∧ name = n ∧ resolvedWithin resp retries = some v

/-- The session after a call that was made when the caches were `snapshot` and whose writes
land on `s`: other calls may have completed in between. `Call.run s` is `Call.runAt s s`. -/
def Call.runAt (snapshot s : Session) : Call → Session
  | .batch names net retries => (batchCallbacks snapshot net retries names 0 s).2
  | .details name resp retries => (fetchPokemonDetailsAt snapshot s name resp retries).2

/-- The call fetches `n` at most once: a batch lists it at most once. -/
def Call.listsOnce (n : String) : Call → Prop
  | .batch names _ _ => names.count n ≤ 1
  | .details _ _ _ => True

/-- Both caches hold the same names. -/
def SameKeys (s : Session) : Prop :=
  ∀ n, s.pokemonListCache n = none ↔ s.pokemonFullCache n = none

/-- Every entry of `s` is an entry of `t`, in both caches. -/
def Persists (s t : Session) : Prop :=
  ∀ n, (∀ v, s.pokemonListCache n = some v → t.pokemonListCache n = some v) ∧
    (∀ v, s.pokemonFullCache n = some v → t.pokemonFullCache n = some v)

/-- A first-branch path of a chain: from the root, the first element of `evolves_to` at each
node, down to a node whose `evolves_to` is empty. -/
inductive FirstBranchPath : ChainNode → List String → Prop where
  | last (species : String) : FirstBranchPath (.mk species []) [species]
  | step (species : String) (next : ChainNode) (others : List ChainNode) (path : List String) :
      FirstBranchPath next path → FirstBranchPath (.mk species (next :: others)) (species :: path)

/-- What holds of the state of `displayPokemonList` after the first load and `k` events that
ask for more. -/
def Covered (pokemonList : List Entry) (k : Nat) (st : ListState) : Prop :=
  st.isLoading = false ∧
    st.loadedCount = min pokemonList.length (6 + 20 * k) ∧
    st.requested.flatten = (pokemonList.take st.loadedCount).map (fun pokemon => pokemon.name) ∧
    st.requested.length = st.loads ∧
    1 ≤ st.loads ∧
    st.loadedCount = min pokemonList.length (6 + 20 * (st.loads - 1)) ∧
    20 * st.loads < pokemonList.length + 34

/-! ## Example data -/

/-- A detail body for `name`, with the sprite file named after it. -/
def bodyOf (name : String) (id : Nat) (primaryType : String) : PokemonData :=
  { name := name, id := id, sprite := some (name ++ ".png"), primaryType := primaryType,
    otherTypes := [], height := 7, weight := 69 }

/-- The first twenty entries of the catalog. -/
def firstTwenty : List Entry :=
  [⟨"bulbasaur", "pokemon/1/"⟩, ⟨"ivysaur", "pokemon/2/"⟩, ⟨"venusaur", "pokemon/3/"⟩,
   ⟨"charmander", "pokemon/4/"⟩, ⟨"charmeleon", "pokemon/5/"⟩, ⟨"charizard", "pokemon/6/"⟩,
   ⟨"squirtle", "pokemon/7/"⟩, ⟨"wartortle", "pokemon/8/"⟩, ⟨"blastoise", "pokemon/9/"⟩,
   ⟨"caterpie", "pokemon/10/"⟩, ⟨"metapod", "pokemon/11/"⟩, ⟨"butterfree", "pokemon/12/"⟩,
   ⟨"weedle", "pokemon/13/"⟩, ⟨"kakuna", "pokemon/14/"⟩, ⟨"beedrill", "pokemon/15/"⟩,
   ⟨"pidgey", "pokemon/16/"⟩, ⟨"pidgeotto", "pokemon/17/"⟩, ⟨"pidgeot", "pokemon/18/"⟩,
   ⟨"rattata", "pokemon/19/"⟩, ⟨"raticate", "pokemon/20/"⟩]

/-- A network on which every attempt for the second name of the slice (ivysaur) fails and the
other five names of the first slice are answered at once. -/
def secondFails : Nat → Nat → Option PokemonData
  | 0, _ => some (bodyOf "bulbasaur" 1 "grass")
  | 2, _ => some (bodyOf "venusaur" 3 "grass")
  | 3, _ => some (bodyOf "charmander" 4 "fire")
  | 4, _ => some (bodyOf "charmeleon" 5 "fire")
  | 5, _ => some (bodyOf "charizard" 6 "fire")
  | _, _ => none

def pikachu : PokemonData := bodyOf "pikachu" 25 "electric"

/-- A network that never answers. -/
def down {α : Type} : Nat → Option α := fun _ => none

/-- A run of `displayPokemonDetails` in which the detail resource answers and the species
resource does not. -/
def speciesDown : DetailNet :=
  { details := fun _ => some pikachu, species := down, chain := down, evolution := fun _ => down }

/-- A run in which the species resource answers and the chain it points to does not. -/
def chainDown : DetailNet :=
  { details := fun _ => some pikachu,
    species := fun _ => some { evolutionChainUrl := "evolution-chain/10/" },
    chain := down, evolution := fun _ => down }

/-- A run in which nothing answers. -/
def allDown : DetailNet :=
  { details := down, species := down, chain := down, evolution := fun _ => down }

/-- A page that holds the detail modal and its content element, as the page of the application
does. -/
def hostPage : Page := { pokemonModal := true, modalContent := true }

/-- A second body for pikachu, as another response for the same name may carry. -/
def pikachuAgain : PokemonData :=
  { name := "pikachu", id := 25, sprite := some "pikachu-again.png", primaryType := "electric",
    otherTypes := [], height := 4, weight := 60 }

/-- A network that answers the first position with `pikachu` and the others with
`pikachuAgain`. -/
def twice : Nat → Nat → Option PokemonData
  | 0, _ => some pikachu
  | _, _ => some pikachuAgain

/-- The session once `fetchPokemonMinimalDetailsBatch(["pikachu"])`, called on the empty caches,
has stored the body `pikachu`. -/
def batchDone : Session :=
  (fetchPokemonMinimalDetailsBatch Session.initial ["pikachu"] (fun _ _ => some pikachu) 3).2

/-- The session once a `fetchPokemonDetails("pikachu")` that was called on the empty caches,
while that batch was in flight, has received `pikachuAgain`, after the batch. -/
def batchThenDetailsDone : Session :=
  (fetchPokemonDetailsAt Session.initial batchDone "pikachu" (fun _ => some pikachuAgain) 3).2

/-- The session once `fetchPokemonDetails("pikachu")`, called on the empty caches, has stored the
body `pikachu`. -/
def detailsDone : Session :=
  (fetchPokemonDetails Session.initial "pikachu" (fun _ => some pikachu) 3).2

/-- The session once a batch for pikachu that was called on the empty caches, while that detail
call was in flight, has received `pikachuAgain`, after the detail call. -/
def detailsThenBatchDone : Session :=
  Call.runAt Session.initial detailsDone (.batch ["pikachu"] (fun _ _ => some pikachuAgain) 3)

/-! ## Theorems -/

/-! ### The retry loop -/

/-- The guarded loop ends within `retries - attempt + 1` iterations, with the result of
`retryLoop`. -/
theorem retryRounds_eq_retryLoop {α : Type} (url : String) (resp : Nat → Option α)
    (retries : Nat) :
    ∀ rounds attempt, retries - attempt < rounds →
      retryRounds url resp retries rounds attempt =
        some (retryLoop url resp retries (retries - attempt) attempt) := by
  intro rounds
  induction rounds with
  | zero => intro attempt h; omega
  | succ rounds ih =>
    intro attempt h
    by_cases hlt : attempt < retries
    · obtain ⟨left, hleft⟩ : ∃ left, retries - attempt = left + 1 :=
        ⟨retries - attempt - 1, by omega⟩
      rw [hleft, retryRounds, retryLoop]
      simp only [hlt, if_true]
      cases resp attempt with
      | some data => rfl
      | none =>
        by_cases hlast : attempt + 1 = retries
        · simp only [hlast, if_true]
        · have hrec := ih (attempt + 1) (by omega)
          have hl : retries - (attempt + 1) = left := by omega
          rw [hl] at hrec
          simp only [hlast, if_false, hrec, Option.map_some']
    · have hzero : retries - attempt = 0 := by omega
      rw [hzero, retryRounds, retryLoop]
      simp only [hlt, if_false]

theorem retryLoop_fst {α : Type} (url : String) (resp : Nat → Option α) (retries : Nat) :
    ∀ left attempt, attempt + left = retries →
      (retryLoop url resp retries left attempt).1 =
        match (List.range' attempt left).findSome? resp with
        | some data => .resolved data
        | none => if left = 0 then .skipped else .exhausted := by
  intro left
  induction left with
  | zero => intro attempt _; simp [retryLoop]
  | succ left ih =>
    intro attempt h
    cases hr : resp attempt with
    | some data => simp [retryLoop, hr, List.range', List.findSome?]
    | none =>
      by_cases hlast : attempt + 1 = retries
      · have hl : left = 0 := by omega
        subst hl
        simp [retryLoop, hr, hlast, List.range', List.findSome?]
      · have hl : left ≠ 0 := by omega
        have := ih (attempt + 1) (by omega)
        simp [retryLoop, hr, hlast, List.range', List.findSome?, this, hl]

theorem retryLoop_outcome {α : Type} (url : String) (resp : Nat → Option α) (retries : Nat) :
    (retryLoop url resp retries retries 0).1 =
      match resolvedWithin resp retries with
      | some data => .resolved data
      | none => if retries = 0 then .skipped else .exhausted := by
  have := retryLoop_fst url resp retries retries 0 (by omega)
  rw [this, resolvedWithin, List.range_eq_range']

theorem retryLoop_events {α : Type} (url : String) (resp : Nat → Option α) (retries : Nat) :
    ∀ left attempt, ∀ e ∈ (retryLoop url resp retries left attempt).2,
      e = .fetch url ∨ ∃ ms, e = .wait ms := by
  intro left
  induction left with
  | zero => intro attempt e he; simp [retryLoop] at he
  | succ left ih =>
    intro attempt e he
    cases hr : resp attempt with
    | some data => simp [retryLoop, hr] at he; exact Or.inl he
    | none =>
      by_cases hlast : attempt + 1 = retries
      · simp [retryLoop, hr, hlast] at he; exact Or.inl he
      · simp [retryLoop, hr, hlast] at he
        rcases he with he | he | he
        · exact Or.inl he
        · exact Or.inr ⟨_, he⟩
        · exact ih _ e he

theorem retryLoop_allFail {α : Type} (url : String) (resp : Nat → Option α) (retries : Nat)
    (hfail : ∀ k, resp k = none) :
    ∀ left attempt, attempt + left = retries → left ≠ 0 →
      retryLoop url resp retries left attempt = (.exhausted, exhaustedTrace url left attempt) := by
  intro left
  induction left with
  | zero => intro attempt _ h; exact absurd rfl h
  | succ left ih =>
    intro attempt h _
    by_cases hlast : attempt + 1 = retries
    · have hl : left = 0 := by omega
      subst hl
      simp [retryLoop, hfail, hlast, exhaustedTrace]
    · obtain ⟨m, rfl⟩ : ∃ m, left = m + 1 := ⟨left - 1, by omega⟩
      have hrec := ih (attempt + 1) (by omega) (by omega)
      rw [retryLoop]
      simp only [hfail, hlast, if_false]
      rw [hrec]
      simp [exhaustedTrace]

theorem requestsIn_exhaustedTrace (url : String) :
    ∀ n failed, requestsIn (exhaustedTrace url n failed) = n := by
  intro n
  induction n using Nat.strongRecOn with
  | _ n ih =>
    intro failed
    match n with
    | 0 => rfl
    | 1 => rfl
    | n + 2 => simp [exhaustedTrace, requestsIn, ih (n + 1) (by omega)]

theorem waitsIn_exhaustedTrace (url : String) :
    ∀ n failed, waitsIn (exhaustedTrace url n failed) =
      (List.range' (failed + 1) (n - 1)).map (fun k => 1000 * k) := by
  intro n
  induction n using Nat.strongRecOn with
  | _ n ih =>
    intro failed
    match n with
    | 0 => rfl
    | 1 => rfl
    | n + 2 => simp [exhaustedTrace, waitsIn, ih (n + 1) (by omega), List.range']

/-! ### C4: exhausted retries -/

/-- C4. Against a source that always fails, with `n ≥ 1` attempts allowed,
`fetchPokemonDetails` of a name that is not cached, `fetchPokemonSpecies` and
`fetchEvolutionChain` each send `n` requests one after another, wait `1000 * k` ms after the
`k`-th failure for `k < n` and not after the `n`-th, and then throw; with `n = 3` that is three
requests separated by waits of 1000 ms and 2000 ms. -/
theorem retries_exhausted (s : Session) (name url : String) (n : Nat)
    (details : Nat → Option PokemonData) (species : Nat → Option SpeciesData)
    (chain : Nat → Option EvolutionData)
    (huncached : s.pokemonFullCache name = none) (hn : 1 ≤ n)
    (hdetails : ∀ k, details k = none) (hspecies : ∀ k, species k = none)
    (hchain : ∀ k, chain k = none) :
    fetchPokemonDetails s name details n =
        (.thrown, { s with log := s.log ++ exhaustedTrace (detailUrl name) n 0 }) ∧
      fetchPokemonSpecies s name species n =
        (.thrown, { s with log := s.log ++ exhaustedTrace (speciesUrl name) n 0 }) ∧
      fetchEvolutionChain s url chain n =
        (.thrown, { s with log := s.log ++ exhaustedTrace url n 0 }) ∧
      (∀ u, requestsIn (exhaustedTrace u n 0) = n ∧
        waitsIn (exhaustedTrace u n 0) = (List.range' 1 (n - 1)).map (fun k => 1000 * k)) ∧
      (∀ u, exhaustedTrace u 3 0 =
        [.fetch u, .wait 1000, .fetch u, .wait 2000, .fetch u]) := by
  have hn0 : n ≠ 0 := by omega
  refine ⟨?_, ?_, ?_, ?_, ?_⟩
  · simp only [fetchPokemonDetails, fetchPokemonDetailsAt, huncached,
      retryLoop_allFail (detailUrl name) details n hdetails n 0 (by omega) hn0]
  · simp only [fetchPokemonSpecies,
      retryLoop_allFail (speciesUrl name) species n hspecies n 0 (by omega) hn0]
  · simp only [fetchEvolutionChain, retryLoop_allFail url chain n hchain n 0 (by omega) hn0]
  · intro u
    exact ⟨requestsIn_exhaustedTrace u n 0, waitsIn_exhaustedTrace u n 0⟩
  · intro u; rfl

/-- C4, with the default three attempts for pikachu on a network that never answers: the call
throws after the requests and waits `fetch, 1000, fetch, 2000, fetch`. -/
theorem retries_exhausted_witness :
    Session.initial.pokemonFullCache "pikachu" = none ∧ 1 ≤ 3 ∧
      (fetchPokemonDetails Session.initial "pikachu" down 3).1 = .thrown ∧
      (fetchPokemonDetails Session.initial "pikachu" down 3).2.log =
        [.fetch (detailUrl "pikachu"), .wait 1000, .fetch (detailUrl "pikachu"), .wait 2000,
         .fetch (detailUrl "pikachu")] := by
  have h := (retries_exhausted Session.initial "pikachu" "evolution-chain/10/" 3 down down down
    rfl (by decide) (fun _ => rfl) (fun _ => rfl) (fun _ => rfl)).1
  exact ⟨rfl, by decide, by rw [h], by rw [h]; rfl⟩

/-! ### C2: the batch fetcher -/

theorem batchCallback_fst (snapshot : Session) (name : String) (resp : Nat → Option PokemonData)
    (retries : Nat) (s : Session) :
    (batchCallback snapshot name resp retries s).1 =
      match snapshot.pokemonListCache name with
      | some m => .record m
      | none =>
        match resolvedWithin resp retries with
        | some data => .record (minimalOf data)
        | none => if retries = 0 then .undefined else .null := by
  unfold batchCallback
  cases hc : snapshot.pokemonListCache name with
  | some m => rfl
  | none =>
    have h := retryLoop_outcome (detailUrl name) resp retries
    generalize retryLoop (detailUrl name) resp retries retries 0 = run at h
    obtain ⟨outcome, events⟩ := run
    simp only at h
    subst h
    cases resolvedWithin resp retries with
    | some data => rfl
    | none => by_cases h0 : retries = 0 <;> simp [h0]

theorem batchCallbacks_filter (snapshot : Session) (net : Nat → Nat → Option PokemonData)
    (retries : Nat) (hr : retries ≠ 0) :
    ∀ names i s,
      (batchCallbacks snapshot net retries names i s).1.filter (fun result => result ≠ .null) =
        (expectedRecords snapshot.pokemonListCache net retries names i).map Resolved.record := by
  intro names
  induction names with
  | nil => intro i s; simp [batchCallbacks, expectedRecords]
  | cons name rest ih =>
    intro i s
    have hrest := ih (i + 1) (batchCallback snapshot name (net i) retries s).2
    simp only [expectedRecords] at hrest ⊢
    simp only [batchCallbacks, List.enumFrom_cons, List.filterMap_cons]
    rw [List.filter_cons, batchCallback_fst]
    cases hc : snapshot.pokemonListCache name with
    | some m => simpa using hrest
    | none =>
      cases hw : resolvedWithin (net i) retries with
      | some data => simpa using hrest
      | none => simpa [hr] using hrest

theorem detailUrl_injective {a b : String} (h : detailUrl a = detailUrl b) : a = b := by
  have h2 := congrArg String.data h
  simp only [detailUrl, String.data_append, List.append_cancel_left_eq] at h2
  exact String.ext h2

theorem batchCallback_log (snapshot : Session) (name : String) (resp : Nat → Option PokemonData)
    (retries : Nat) (s : Session) :
    ∃ delta, (batchCallback snapshot name resp retries s).2.log = s.log ++ delta ∧
      ∀ url, Event.fetch url ∈ delta →
        snapshot.pokemonListCache name = none ∧ url = detailUrl name := by
  unfold batchCallback
  cases hc : snapshot.pokemonListCache name with
  | some m => exact ⟨[], by simp, by simp⟩
  | none =>
    have hev := retryLoop_events (detailUrl name) resp retries retries 0
    generalize retryLoop (detailUrl name) resp retries retries 0 = run at hev
    obtain ⟨outcome, events⟩ := run
    refine ⟨events, ?_, ?_⟩
    · cases outcome <;> rfl
    · intro url hu
      rcases hev _ hu with h | ⟨ms, h⟩
      · exact ⟨rfl, by injection h⟩
      · cases h

theorem batchCallbacks_log (snapshot : Session) (net : Nat → Nat → Option PokemonData)
    (retries : Nat) :
    ∀ names i s, ∃ delta, (batchCallbacks snapshot net retries names i s).2.log = s.log ++ delta ∧
      ∀ url, Event.fetch url ∈ delta →
        ∃ name ∈ names, snapshot.pokemonListCache name = none ∧ url = detailUrl name := by
  intro names
  induction names with
  | nil => intro i s; exact ⟨[], by simp [batchCallbacks], by simp⟩
  | cons name rest ih =>
    intro i s
    obtain ⟨d1, h1, f1⟩ := batchCallback_log snapshot name (net i) retries s
    obtain ⟨d2, h2, f2⟩ := ih (i + 1) (batchCallback snapshot name (net i) retries s).2
    refine ⟨d1 ++ d2, ?_, ?_⟩
    · simp only [batchCallbacks]
      rw [h2, h1, List.append_assoc]
    · intro url hu
      rcases List.mem_append.mp hu with hu | hu
      · exact ⟨name, List.mem_cons_self _ _, f1 url hu⟩
      · obtain ⟨n, hn, hrest⟩ := f2 url hu
        exact ⟨n, List.mem_cons_of_mem _ hn, hrest⟩

/-- C2. `fetchPokemonMinimalDetailsBatch(names)` with the default `retries = 3` returns, in input
order, the cached record of every input name that is in the minimal cache when the call is
made and the projection of the first body fetched within 3 attempts for every other name that
gets one; a name whose 3 attempts all fail adds nothing and the call still returns; and no
request is sent for a name that was in the minimal cache. -/
theorem fetchPokemonMinimalDetailsBatch_returns (s : Session) (names : List String)
    (net : Nat → Nat → Option PokemonData) :
    (fetchPokemonMinimalDetailsBatch s names net defaultRetries).1 =
        (expectedRecords s.pokemonListCache net 3 names 0).map Resolved.record ∧
      ∃ delta, (fetchPokemonMinimalDetailsBatch s names net defaultRetries).2.log = s.log ++ delta ∧
        (∀ url, Event.fetch url ∈ delta →
          ∃ name ∈ names, s.pokemonListCache name = none ∧ url = detailUrl name) ∧
        ∀ name, s.pokemonListCache name ≠ none → Event.fetch (detailUrl name) ∉ delta := by
  refine ⟨batchCallbacks_filter s net defaultRetries (by decide) names 0 s, ?_⟩
  obtain ⟨delta, hlog, hfetch⟩ := batchCallbacks_log s net defaultRetries names 0 s
  refine ⟨delta, hlog, hfetch, ?_⟩
  intro name hcached hmem
  obtain ⟨other, _, hnone, hurl⟩ := hfetch _ hmem
  rw [detailUrl_injective hurl] at hcached
  exact hcached hnone

/-! ### C1 and C3: `loadPokemonBatch` -/

theorem renderCards_records (batch : List Entry) :
    ∀ (ms : List MinimalData) (index : Nat), index + ms.length ≤ batch.length →
      renderCards batch (ms.map Resolved.record) index =
        (List.zipWith cardOf ms (batch.drop index), true) := by
  intro ms
  induction ms with
  | nil => intro index _; simp [renderCards]
  | cons m rest ih =>
    intro index h
    have hlt : index < batch.length := by simp at h; omega
    have hrest := ih (index + 1) (by simp at h ⊢; omega)
    simp only [List.map_cons, renderCards, List.getElem?_eq_getElem hlt, hrest]
    rw [List.drop_eq_getElem_cons hlt]
    rfl

theorem expectedRecords_length (cache : String → Option MinimalData)
    (net : Nat → Nat → Option PokemonData) (retries : Nat) (names : List String) (first : Nat) :
    (expectedRecords cache net retries names first).length ≤ names.length := by
  unfold expectedRecords
  exact (List.length_filterMap_le _ _).trans (by simp)

/-- What `loadPokemonBatch` does, in one equation per field: the records are laid against the
slice index by index. -/
theorem loadPokemonBatch_eq (s : Session) (pokemonList : List Entry) (startIndex batchSize : Nat)
    (net : Nat → Nat → Option PokemonData) :
    (loadPokemonBatch s pokemonList startIndex batchSize net).returned =
        .value (startIndex + min batchSize (pokemonList.length - startIndex)) ∧
      (loadPokemonBatch s pokemonList startIndex batchSize net).cards =
        List.zipWith cardOf
          (expectedRecords s.pokemonListCache net 3
            (((pokemonList.drop startIndex).take batchSize).map (fun pokemon => pokemon.name)) 0)
          ((pokemonList.drop startIndex).take batchSize) ∧
      (loadPokemonBatch s pokemonList startIndex batchSize net).names =
        ((pokemonList.drop startIndex).take batchSize).map (fun pokemon => pokemon.name) := by
  have hres := batchCallbacks_filter s net defaultRetries (by decide)
    (((pokemonList.drop startIndex).take batchSize).map (fun pokemon => pokemon.name)) 0 s
  have hlen := expectedRecords_length s.pokemonListCache net defaultRetries
    (((pokemonList.drop startIndex).take batchSize).map (fun pokemon => pokemon.name)) 0
  have hcards := renderCards_records ((pokemonList.drop startIndex).take batchSize)
    (expectedRecords s.pokemonListCache net defaultRetries
      (((pokemonList.drop startIndex).take batchSize).map (fun pokemon => pokemon.name)) 0) 0
    (by simpa using hlen)
  simp only [loadPokemonBatch, fetchPokemonMinimalDetailsBatch, hres, hcards, List.drop_zero]
  simp [defaultRetries]

/-- C1. For a cursor `c` within the catalog `L` and a slice size `s`, `loadPokemonBatch`
returns `c + min s (|L| - c)`, whatever the network answers to the fetches of the slice. -/
theorem loadPokemonBatch_cursor (s : Session) (pokemonList : List Entry)
    (startIndex batchSize : Nat) (net : Nat → Nat → Option PokemonData)
    (hcursor : startIndex ≤ pokemonList.length) :
    (loadPokemonBatch s pokemonList startIndex batchSize net).returned =
      .value (startIndex + min batchSize (pokemonList.length - startIndex)) ∧
    startIndex + min batchSize (pokemonList.length - startIndex) ≤ pokemonList.length :=
  ⟨(loadPokemonBatch_eq s pokemonList startIndex batchSize net).1, by omega⟩

/-- C1, at the catalog of twenty entries, cursor 0 and slice size 6, with every attempt for
ivysaur failing: the cursor returned is 6 and five cards are appended. -/
theorem loadPokemonBatch_cursor_witness :
    0 ≤ firstTwenty.length ∧
      (loadPokemonBatch Session.initial firstTwenty 0 6 secondFails).returned = .value 6 ∧
      (loadPokemonBatch Session.initial firstTwenty 0 6 secondFails).cards.length = 5 :=
  ⟨by decide,
    (loadPokemonBatch_cursor Session.initial firstTwenty 0 6 secondFails (by decide)).1,
    by decide⟩

/-- C3, evaluated on a slice of six names whose second name fails every attempt: five cards,
the `k`-th made of the `k`-th entry of the slice and the `k`-th record that was resolved, so
the card of ivysaur carries the sprite and type of venusaur, the card of venusaur those of
charmander, and so on; charizard, whose record was resolved, has no card. -/
theorem loadPokemonBatch_pairs_by_position :
    (loadPokemonBatch Session.initial firstTwenty 0 6 secondFails).cards.map
        (fun card => (card.pokemon.name, card.sprite, card.primaryType)) =
      [("bulbasaur", some "bulbasaur.png", "grass"),
       ("ivysaur", some "venusaur.png", "grass"),
       ("venusaur", some "charmander.png", "fire"),
       ("charmander", some "charmeleon.png", "fire"),
       ("charmeleon", some "charizard.png", "fire")] := by
  decide

/-! ### C5 and C6: the caches -/

theorem mapSet_ne {β : Type} (m : String → Option β) (key k : String) (value : β)
    (h : k ≠ key) : mapSet m key value k = m k := by
  simp [mapSet, h]

theorem mapSet_self {β : Type} (m : String → Option β) (key : String) (value : β) :
    mapSet m key value key = some value := by
  simp [mapSet]

theorem batchCallback_caches (snapshot : Session) (name : String)
    (resp : Nat → Option PokemonData) (retries : Nat) (s : Session) :
    ((batchCallback snapshot name resp retries s).2.pokemonListCache = s.pokemonListCache ∧
      (batchCallback snapshot name resp retries s).2.pokemonFullCache = s.pokemonFullCache ∧
      (snapshot.pokemonListCache name ≠ none ∨ resolvedWithin resp retries = none)) ∨
    (∃ data, snapshot.pokemonListCache name = none ∧ resolvedWithin resp retries = some data ∧
      (batchCallback snapshot name resp retries s).2.pokemonListCache =
        mapSet s.pokemonListCache name (minimalOf data) ∧
      (batchCallback snapshot name resp retries s).2.pokemonFullCache =
        mapSet s.pokemonFullCache name data) := by
  unfold batchCallback
  cases hc : snapshot.pokemonListCache name with
  | some m => exact Or.inl ⟨rfl, rfl, Or.inl (by simp)⟩
  | none =>
    have h := retryLoop_outcome (detailUrl name) resp retries
    generalize retryLoop (detailUrl name) resp retries retries 0 = run at h
    obtain ⟨outcome, events⟩ := run
    simp only at h
    cases hw : resolvedWithin resp retries with
    | some data =>
      rw [hw] at h
      subst h
      exact Or.inr ⟨data, rfl, rfl, rfl, rfl⟩
    | none =>
      rw [hw] at h
      by_cases h0 : retries = 0
      · simp only [h0, if_true] at h
        subst h
        exact Or.inl ⟨rfl, rfl, Or.inr rfl⟩
      · simp only [h0, if_false] at h
        subst h
        exact Or.inl ⟨rfl, rfl, Or.inr rfl⟩

theorem batchCallback_sameKeys (snapshot : Session) (name : String)
    (resp : Nat → Option PokemonData) (retries : Nat) (s : Session) (hs : SameKeys s) :
    SameKeys (batchCallback snapshot name resp retries s).2 := by
  rcases batchCallback_caches snapshot name resp retries s with ⟨h1, h2, _⟩ | ⟨data, _, _, h1, h2⟩
  · intro n; rw [h1, h2]; exact hs n
  · intro n
    rw [h1, h2]
    by_cases hn : n = name
    · subst hn; simp [mapSet]
    · rw [mapSet_ne _ _ _ _ hn, mapSet_ne _ _ _ _ hn]; exact hs n

/-- The callbacks of a batch leave alone every name that the snapshot holds. -/
theorem batchCallbacks_frame (snapshot : Session) (net : Nat → Nat → Option PokemonData)
    (retries : Nat) (n : String) (hn : snapshot.pokemonListCache n ≠ none) :
    ∀ names i s,
      (batchCallbacks snapshot net retries names i s).2.pokemonListCache n = s.pokemonListCache n ∧
      (batchCallbacks snapshot net retries names i s).2.pokemonFullCache n = s.pokemonFullCache n := by
  intro names
  induction names with
  | nil => intro i s; exact ⟨rfl, rfl⟩
  | cons name rest ih =>
    intro i s
    have hrest := ih (i + 1) (batchCallback snapshot name (net i) retries s).2
    simp only [batchCallbacks]
    rw [hrest.1, hrest.2]
    rcases batchCallback_caches snapshot name (net i) retries s with
      ⟨h1, h2, _⟩ | ⟨data, hnone, _, h1, h2⟩
    · rw [h1, h2]; exact ⟨rfl, rfl⟩
    · have hne : n ≠ name := fun h => hn (h ▸ hnone)
      rw [h1, h2, mapSet_ne _ _ _ _ hne, mapSet_ne _ _ _ _ hne]
      exact ⟨rfl, rfl⟩

theorem batchCallbacks_sameKeys (snapshot : Session) (net : Nat → Nat → Option PokemonData)
    (retries : Nat) :
    ∀ names i s, SameKeys s → SameKeys (batchCallbacks snapshot net retries names i s).2 := by
  intro names
  induction names with
  | nil => intro i s hs; exact hs
  | cons name rest ih =>
    intro i s hs
    exact ih (i + 1) _ (batchCallback_sameKeys snapshot name (net i) retries s hs)

theorem fetchPokemonDetails_hit (s : Session) (name : String) (resp : Nat → Option PokemonData)
    (retries : Nat) (v : PokemonData) (h : s.pokemonFullCache name = some v) :
    fetchPokemonDetails s name resp retries = (.value v, s) := by
  simp [fetchPokemonDetails, fetchPokemonDetailsAt, h]

theorem fetchPokemonDetailsAt_caches (snapshot s : Session) (name : String)
    (resp : Nat → Option PokemonData) (retries : Nat) :
    ((fetchPokemonDetailsAt snapshot s name resp retries).2.pokemonListCache = s.pokemonListCache ∧
      (fetchPokemonDetailsAt snapshot s name resp retries).2.pokemonFullCache = s.pokemonFullCache ∧
      (snapshot.pokemonFullCache name ≠ none ∨ resolvedWithin resp retries = none)) ∨
    (∃ data, snapshot.pokemonFullCache name = none ∧ resolvedWithin resp retries = some data ∧
      (fetchPokemonDetailsAt snapshot s name resp retries).1 = .value data ∧
      (fetchPokemonDetailsAt snapshot s name resp retries).2.pokemonListCache =
        mapSet s.pokemonListCache name (minimalOf data) ∧
      (fetchPokemonDetailsAt snapshot s name resp retries).2.pokemonFullCache =
        mapSet s.pokemonFullCache name data) := by
  unfold fetchPokemonDetailsAt
  cases hc : snapshot.pokemonFullCache name with
  | some m => exact Or.inl ⟨rfl, rfl, Or.inl (by simp)⟩
  | none =>
    have h := retryLoop_outcome (detailUrl name) resp retries
    generalize retryLoop (detailUrl name) resp retries retries 0 = run at h
    obtain ⟨outcome, events⟩ := run
    simp only at h
    cases hw : resolvedWithin resp retries with
    | some data =>
      rw [hw] at h
      subst h
      exact Or.inr ⟨data, rfl, rfl, rfl, rfl, rfl⟩
    | none =>
      rw [hw] at h
      by_cases h0 : retries = 0
      · simp only [h0, if_true] at h
        subst h
        exact Or.inl ⟨rfl, rfl, Or.inr rfl⟩
      · simp only [h0, if_false] at h
        subst h
        exact Or.inl ⟨rfl, rfl, Or.inr rfl⟩

theorem Call.run_sameKeys (s : Session) (c : Call) (hs : SameKeys s) : SameKeys (c.run s) := by
  cases c with
  | batch names net retries => exact batchCallbacks_sameKeys s net retries names 0 s hs
  | details name resp retries =>
    show SameKeys (fetchPokemonDetailsAt s s name resp retries).2
    rcases fetchPokemonDetailsAt_caches s s name resp retries with
      ⟨h1, h2, _⟩ | ⟨data, _, _, _, h1, h2⟩
    · intro n; rw [h1, h2]; exact hs n
    · intro n
      rw [h1, h2]
      by_cases hn : n = name
      · subst hn; simp [mapSet]
      · rw [mapSet_ne _ _ _ _ hn, mapSet_ne _ _ _ _ hn]; exact hs n

theorem Call.run_persists (s : Session) (c : Call) (hs : SameKeys s) : Persists s (c.run s) := by
  intro n
  cases c with
  | batch names net retries =>
    show (∀ v, _ → (batchCallbacks s net retries names 0 s).2.pokemonListCache n = some v) ∧
      (∀ v, _ → (batchCallbacks s net retries names 0 s).2.pokemonFullCache n = some v)
    constructor
    · intro v hv
      have hn : s.pokemonListCache n ≠ none := by simp [hv]
      rw [(batchCallbacks_frame s net retries n hn names 0 s).1]; exact hv
    · intro v hv
      have hn : s.pokemonListCache n ≠ none := fun h => by
        have := (hs n).mp h
        simp [hv] at this
      rw [(batchCallbacks_frame s net retries n hn names 0 s).2]; exact hv
  | details name resp retries =>
    show (∀ v, _ → (fetchPokemonDetailsAt s s name resp retries).2.pokemonListCache n = some v) ∧
      (∀ v, _ → (fetchPokemonDetailsAt s s name resp retries).2.pokemonFullCache n = some v)
    rcases fetchPokemonDetailsAt_caches s s name resp retries with
      ⟨h1, h2, _⟩ | ⟨data, hnone, _, _, h1, h2⟩
    · rw [h1, h2]; exact ⟨fun v hv => hv, fun v hv => hv⟩
    · rw [h1, h2]
      constructor
      · intro v hv
        have hne : n ≠ name := fun h => by
          have := (hs name).mpr hnone
          rw [h] at hv
          simp [hv] at this
        rw [mapSet_ne _ _ _ _ hne]; exact hv
      · intro v hv
        have hne : n ≠ name := fun h => by
          rw [h] at hv
          simp [hv] at hnone
        rw [mapSet_ne _ _ _ _ hne]; exact hv

theorem runCalls_sameKeys (calls : List Call) :
    ∀ s, SameKeys s → SameKeys (runCalls s calls) := by
  induction calls with
  | nil => intro s hs; exact hs
  | cons c rest ih => intro s hs; exact ih _ (Call.run_sameKeys s c hs)

theorem runCalls_persists (calls : List Call) :
    ∀ s, SameKeys s → Persists s (runCalls s calls) := by
  induction calls with
  | nil => intro s _ n; exact ⟨fun v hv => hv, fun v hv => hv⟩
  | cons c rest ih =>
    intro s hs n
    have h1 := Call.run_persists s c hs n
    have h2 := ih (c.run s) (Call.run_sameKeys s c hs) n
    exact ⟨fun v hv => h2.1 v (h1.1 v hv), fun v hv => h2.2 v (h1.2 v hv)⟩

theorem sameKeys_initial : SameKeys Session.initial := fun _ => by simp [Session.initial]

theorem runCalls_append (s : Session) (pre post : List Call) :
    runCalls s (pre ++ post) = runCalls (runCalls s pre) post := by
  simp [runCalls, List.foldl_append]

/-- For a name the snapshot does not hold: either none of its occurrences in the batch is
fetched with success and its full entry is untouched, or the entry is the body one of its
occurrences fetched. -/
theorem batchCallbacks_stores (snapshot : Session) (net : Nat → Nat → Option PokemonData)
    (retries : Nat) (n : String) (hn : snapshot.pokemonListCache n = none) :
    ∀ names i s,
      ((batchCallbacks snapshot net retries names i s).2.pokemonFullCache n = s.pokemonFullCache n ∧
        ∀ j, names[j]? = some n → resolvedWithin (net (i + j)) retries = none) ∨
      (∃ j v, names[j]? = some n ∧ resolvedWithin (net (i + j)) retries = some v ∧
        (batchCallbacks snapshot net retries names i s).2.pokemonFullCache n = some v) := by
  intro names
  induction names with
  | nil => intro i s; exact Or.inl ⟨rfl, fun j hj => by simp at hj⟩
  | cons name rest ih =>
    intro i s
    simp only [batchCallbacks]
    rcases ih (i + 1) (batchCallback snapshot name (net i) retries s).2 with
      ⟨hsame, hfail⟩ | ⟨j, v, hj, hv, hfull⟩
    · rcases batchCallback_caches snapshot name (net i) retries s with
        ⟨_, h2, hwhy⟩ | ⟨data, _, hdata, _, h2⟩
      · refine Or.inl ⟨by rw [hsame, h2], ?_⟩
        intro j hj
        cases j with
        | zero =>
          have hname : name = n := by simpa using hj
          subst hname
          rcases hwhy with h | h
          · exact absurd hn h
          · exact h
        | succ j =>
          have := hfail j (by simpa using hj)
          rwa [show i + 1 + j = i + (j + 1) by omega] at this
      · by_cases hname : n = name
        · subst hname
          exact Or.inr ⟨0, data, by simp, hdata, by rw [hsame, h2, mapSet_self]⟩
        · refine Or.inl ⟨by rw [hsame, h2, mapSet_ne _ _ _ _ hname], ?_⟩
          intro j hj
          cases j with
          | zero => exact absurd (by simpa using hj : name = n).symm hname
          | succ j =>
            have := hfail j (by simpa using hj)
            rwa [show i + 1 + j = i + (j + 1) by omega] at this
    · refine Or.inr ⟨j + 1, v, by simpa using hj, ?_, hfull⟩
      rwa [show i + 1 + j = i + (j + 1) by omega] at hv

theorem Call.run_stores (s : Session) (c : Call) (n : String) (v0 : PokemonData)
    (h : c.fetched s n v0) :
    ∃ v, c.fetched s n v ∧ (c.run s).pokemonFullCache n = some v := by
  cases c with
  | batch names net retries =>
    obtain ⟨hnone, i, hi, hv0⟩ := h
    rcases batchCallbacks_stores s net retries n hnone names 0 s with
      ⟨_, hfail⟩ | ⟨j, v, hj, hv, hfull⟩
    · have := hfail i hi
      rw [Nat.zero_add, hv0] at this
      cases this
    · rw [Nat.zero_add] at hv
      exact ⟨v, ⟨hnone, j, hj, hv⟩, hfull⟩
  | details name resp retries =>
    obtain ⟨hnone, hname, hv0⟩ := h
    subst hname
    rcases fetchPokemonDetailsAt_caches s s name resp retries with
      ⟨_, _, hwhy⟩ | ⟨data, _, hdata, _, _, h2⟩
    · rcases hwhy with h | h
      · exact absurd hnone h
      · rw [hv0] at h; cases h
    · refine ⟨data, ⟨hnone, rfl, hdata⟩, ?_⟩
      show (fetchPokemonDetailsAt s s name resp retries).2.pokemonFullCache name = some data
      rw [h2, mapSet_self]

theorem batchCallbacks_untouched (snapshot : Session) (net : Nat → Nat → Option PokemonData)
    (retries : Nat) (n : String) :
    ∀ names i s, (n ∈ names → snapshot.pokemonListCache n ≠ none) →
      (batchCallbacks snapshot net retries names i s).2.pokemonListCache n = s.pokemonListCache n ∧
      (batchCallbacks snapshot net retries names i s).2.pokemonFullCache n = s.pokemonFullCache n := by
  intro names
  induction names with
  | nil => intro i s _; exact ⟨rfl, rfl⟩
  | cons name rest ih =>
    intro i s hn
    have hrest := ih (i + 1) (batchCallback snapshot name (net i) retries s).2
      (fun h => hn (List.mem_cons_of_mem _ h))
    simp only [batchCallbacks]
    rw [hrest.1, hrest.2]
    rcases batchCallback_caches snapshot name (net i) retries s with
      ⟨h1, h2, _⟩ | ⟨data, hnone, _, h1, h2⟩
    · rw [h1, h2]; exact ⟨rfl, rfl⟩
    · have hne : n ≠ name := fun h => hn (h ▸ List.mem_cons_self _ _) (h ▸ hnone)
      rw [h1, h2, mapSet_ne _ _ _ _ hne, mapSet_ne _ _ _ _ hne]
      exact ⟨rfl, rfl⟩

theorem batchCallbacks_append (snapshot : Session) (net : Nat → Nat → Option PokemonData)
    (retries : Nat) (rest : List String) :
    ∀ done i s,
      (batchCallbacks snapshot net retries (done ++ rest) i s).2 =
        (batchCallbacks snapshot net retries rest (i + done.length)
          (batchCallbacks snapshot net retries done i s).2).2 := by
  intro done
  induction done with
  | nil => intro i s; rfl
  | cons name done ih =>
    intro i s
    have h := ih (i + 1) (batchCallback snapshot name (net i) retries s).2
    rw [show i + 1 + done.length = i + (name :: done).length by simp; omega] at h
    exact h

/-- Within one batch, for a name its input lists at most once: the entries the name has once
the callbacks of a first part of the input have written are the entries it has when the batch
returns. -/
theorem batchCallbacks_keeps (s : Session) (hs : SameKeys s)
    (net : Nat → Nat → Option PokemonData) (retries : Nat) (n : String)
    (done rest : List String) (honce : (done ++ rest).count n ≤ 1) :
    (∀ m, (batchCallbacks s net retries done 0 s).2.pokemonListCache n = some m →
        (batchCallbacks s net retries (done ++ rest) 0 s).2.pokemonListCache n = some m) ∧
      (∀ v, (batchCallbacks s net retries done 0 s).2.pokemonFullCache n = some v →
        (batchCallbacks s net retries (done ++ rest) 0 s).2.pokemonFullCache n = some v) := by
  rw [batchCallbacks_append]
  have hrest : n ∈ rest → s.pokemonListCache n ≠ none ∨ n ∉ done := by
    intro hr
    refine Or.inr (fun hd => ?_)
    rw [List.count_append] at honce
    have h1 := List.count_pos_iff.mpr hd
    have h2 := List.count_pos_iff.mpr hr
    omega
  by_cases hd : n ∈ done
  · have hfree : n ∈ rest → s.pokemonListCache n ≠ none := fun hr =>
      (hrest hr).elim id (fun h => absurd hd h)
    have h := batchCallbacks_untouched s net retries n rest (0 + done.length)
      (batchCallbacks s net retries done 0 s).2 hfree
    rw [h.1, h.2]
    exact ⟨fun m hm => hm, fun v hv => hv⟩
  · have hsame := batchCallbacks_untouched s net retries n done 0 s (fun h => absurd h hd)
    constructor
    · intro m hm
      have hcached : s.pokemonListCache n ≠ none := by
        rw [hsame.1] at hm; simp [hm]
      rw [(batchCallbacks_untouched s net retries n rest (0 + done.length) _
        (fun _ => hcached)).1]
      exact hm
    · intro v hv
      have hcached : s.pokemonListCache n ≠ none := by
        rw [hsame.2] at hv
        intro h
        have := (hs n).mp h
        simp [hv] at this
      rw [(batchCallbacks_untouched s net retries n rest (0 + done.length) _
        (fun _ => hcached)).2]
      exact hv

theorem index_unique_of_count_le_one (n : String) :
    ∀ (names : List String) (i j : Nat), names.count n ≤ 1 →
      names[i]? = some n → names[j]? = some n → i = j := by
  intro names
  induction names with
  | nil => intro i j _ hi _; simp at hi
  | cons x xs ih =>
    intro i j hc hi hj
    rw [List.count_cons] at hc
    cases i with
    | zero =>
      cases j with
      | zero => rfl
      | succ j =>
        have hx : x = n := by simpa using hi
        have hmem : n ∈ xs := List.getElem?_mem (by simpa using hj)
        have := List.count_pos_iff.mpr hmem
        simp [hx] at hc
        omega
    | succ i =>
      cases j with
      | zero =>
        have hx : x = n := by simpa using hj
        have hmem : n ∈ xs := List.getElem?_mem (by simpa using hi)
        have := List.count_pos_iff.mpr hmem
        simp [hx] at hc
        omega
      | succ j =>
        have := ih i j (by omega) (by simpa using hi) (by simpa using hj)
        omega

/-- A call made when `n` was in both caches leaves the entries of `n` as they are when it
completes, whatever was written in between. -/
theorem Call.runAt_untouched (snapshot s : Session) (c : Call) (n : String)
    (hlist : snapshot.pokemonListCache n ≠ none) (hfull : snapshot.pokemonFullCache n ≠ none) :
    (c.runAt snapshot s).pokemonListCache n = s.pokemonListCache n ∧
      (c.runAt snapshot s).pokemonFullCache n = s.pokemonFullCache n := by
  cases c with
  | batch names net retries =>
    exact batchCallbacks_untouched snapshot net retries n names 0 s (fun _ => hlist)
  | details name resp retries =>
    show (fetchPokemonDetailsAt snapshot s name resp retries).2.pokemonListCache n = _ ∧
      (fetchPokemonDetailsAt snapshot s name resp retries).2.pokemonFullCache n = _
    rcases fetchPokemonDetailsAt_caches snapshot s name resp retries with
      ⟨h1, h2, _⟩ | ⟨data, hnone, _, _, h1, h2⟩
    · rw [h1, h2]; exact ⟨rfl, rfl⟩
    · have hne : n ≠ name := fun h => hfull (h ▸ hnone)
      rw [h1, h2, mapSet_ne _ _ _ _ hne, mapSet_ne _ _ _ _ hne]
      exact ⟨rfl, rfl⟩

/-- C5, as amended. A `fetchPokemonDetails(n)` made while `n` has a full record sends no request
and returns the record then held. In a sequence of calls of the two resolvers made from the
empty caches, each awaited before the next: once a call has fetched `n` with success, the full
cache holds a body one of its successful fetches of `n` received, exactly the body its fetch
received when the call lists `n` once, and every later `fetchPokemonDetails(n)` returns that
record and leaves the session, log included, as it was. -/
theorem fetchPokemonDetails_after_fetch (pre : List Call) (c : Call) (post : List Call)
    (n : String) (resp : Nat → Option PokemonData) (retries : Nat) (v0 : PokemonData)
    (hfetched : c.fetched (runCalls Session.initial pre) n v0) :
    (∀ s v, s.pokemonFullCache n = some v → fetchPokemonDetails s n resp retries = (.value v, s)) ∧
      ∃ v, c.fetched (runCalls Session.initial pre) n v ∧
        (c.listsOnce n → v = v0) ∧
        (runCalls Session.initial (pre ++ [c])).pokemonFullCache n = some v ∧
        fetchPokemonDetails (runCalls Session.initial (pre ++ c :: post)) n resp retries =
          (.value v, runCalls Session.initial (pre ++ c :: post)) := by
  refine ⟨fun s v h => fetchPokemonDetails_hit s n resp retries v h, ?_⟩
  have hkeys := runCalls_sameKeys pre _ sameKeys_initial
  obtain ⟨v, hv, hfull⟩ := Call.run_stores _ c n v0 hfetched
  refine ⟨v, hv, ?_, ?_, ?_⟩
  · intro honce
    cases c with
    | batch names net retries =>
      obtain ⟨_, i, hi, hvi⟩ := hfetched
      obtain ⟨_, j, hj, hvj⟩ := hv
      have hij := index_unique_of_count_le_one n names i j honce hi hj
      subst hij
      rw [hvi] at hvj
      exact (Option.some.inj hvj).symm
    | details name resp retries =>
      obtain ⟨_, _, hvi⟩ := hfetched
      obtain ⟨_, _, hvj⟩ := hv
      rw [hvi] at hvj
      exact (Option.some.inj hvj).symm
  · rw [runCalls_append]; exact hfull
  · have hlater : (runCalls Session.initial (pre ++ c :: post)).pokemonFullCache n = some v := by
      rw [runCalls_append]
      exact (runCalls_persists post _ (Call.run_sameKeys _ c hkeys) n).2 v hfull
    exact fetchPokemonDetails_hit _ n resp retries v hlater

/-- C5 as amended, for `batch(["pikachu"])` then `details("pikachu")`, and for
`details("pikachu")` twice: the second call returns the body the first one received, on a
network that no longer answers, and the log holds one request in all. -/
theorem fetchPokemonDetails_after_fetch_witness :
    fetchPokemonDetails
        (runCalls Session.initial [.batch ["pikachu"] (fun _ _ => some pikachu) 3])
        "pikachu" down 3 =
      (.value pikachu, runCalls Session.initial [.batch ["pikachu"] (fun _ _ => some pikachu) 3]) ∧
    requestsIn
      (runCalls Session.initial [.batch ["pikachu"] (fun _ _ => some pikachu) 3]).log = 1 ∧
    fetchPokemonDetails
        (runCalls Session.initial [.details "pikachu" (fun _ => some pikachu) 3])
        "pikachu" down 3 =
      (.value pikachu, runCalls Session.initial [.details "pikachu" (fun _ => some pikachu) 3]) ∧
    requestsIn
      (runCalls Session.initial [.details "pikachu" (fun _ => some pikachu) 3]).log = 1 := by
  obtain ⟨_, v, _, honce, _, hret⟩ :=
    fetchPokemonDetails_after_fetch [] (.batch ["pikachu"] (fun _ _ => some pikachu) 3) []
      "pikachu" down 3 pikachu ⟨rfl, 0, rfl, rfl⟩
  obtain ⟨_, w, _, honce2, _, hret2⟩ :=
    fetchPokemonDetails_after_fetch [] (.details "pikachu" (fun _ => some pikachu) 3) []
      "pikachu" down 3 pikachu ⟨rfl, rfl, rfl⟩
  have hv : v = pikachu := honce (show ["pikachu"].count "pikachu" ≤ 1 by decide)
  have hw : w = pikachu := honce2 trivial
  subst hv
  subst hw
  exact ⟨hret, by decide, hret2, by decide⟩

/-- C5 as stated fails when a fetch of the name is in flight while another completes. A batch
for pikachu and a `fetchPokemonDetails("pikachu")` are both called on the empty caches; the
batch is the first to succeed and stores `pikachu`; the detail call then receives
`pikachuAgain` and stores it; a later `fetchPokemonDetails("pikachu")` sends no request and
returns `pikachuAgain`, not the record of the first successful fetch. The same inside one batch
that lists pikachu twice: the first callback stores `pikachu`, the later call returns
`pikachuAgain`. -/
theorem fetchPokemonDetails_returns_in_flight_write :
    batchDone.pokemonFullCache "pikachu" = some pikachu ∧
      (fetchPokemonDetails batchThenDetailsDone "pikachu" down 3).1 = .value pikachuAgain ∧
      (fetchPokemonDetails batchThenDetailsDone "pikachu" down 3).2.log =
        batchThenDetailsDone.log ∧
      pikachuAgain ≠ pikachu ∧
      (batchCallback Session.initial "pikachu" (twice 0) 3 Session.initial).2.pokemonFullCache
        "pikachu" = some pikachu ∧
      (fetchPokemonDetails
        (fetchPokemonMinimalDetailsBatch Session.initial ["pikachu", "pikachu"] twice 3).2
        "pikachu" down 3).1 = .value pikachuAgain := by
  decide

/-- C6, as amended. A call made when `n` was in both caches leaves the entries of `n` as they
are when it completes, whatever was written in between. In every sequence of calls of the two
resolvers made from the empty caches, each awaited before the next, an entry a name has in the
minimal cache, or in the full cache, after some of the calls is the entry it has after any
further calls; and within a batch of such a sequence that lists the name at most once, the
entries the name has once a first part of the batch has written are the entries it has when the
batch returns. -/
theorem cache_entries_persist (pre post : List Call) (n : String) :
    (∀ m, (runCalls Session.initial pre).pokemonListCache n = some m →
        (runCalls Session.initial (pre ++ post)).pokemonListCache n = some m) ∧
      (∀ v, (runCalls Session.initial pre).pokemonFullCache n = some v →
        (runCalls Session.initial (pre ++ post)).pokemonFullCache n = some v) ∧
      (∀ (done rest : List String) (net : Nat → Nat → Option PokemonData) (retries : Nat),
        (done ++ rest).count n ≤ 1 →
        (∀ m, (batchCallbacks (runCalls Session.initial pre) net retries done 0
              (runCalls Session.initial pre)).2.pokemonListCache n = some m →
          (fetchPokemonMinimalDetailsBatch (runCalls Session.initial pre) (done ++ rest) net
              retries).2.pokemonListCache n = some m) ∧
        (∀ v, (batchCallbacks (runCalls Session.initial pre) net retries done 0
              (runCalls Session.initial pre)).2.pokemonFullCache n = some v →
          (fetchPokemonMinimalDetailsBatch (runCalls Session.initial pre) (done ++ rest) net
              retries).2.pokemonFullCache n = some v)) ∧
      (∀ (snapshot s : Session) (c : Call),
        snapshot.pokemonListCache n ≠ none → snapshot.pokemonFullCache n ≠ none →
        (c.runAt snapshot s).pokemonListCache n = s.pokemonListCache n ∧
          (c.runAt snapshot s).pokemonFullCache n = s.pokemonFullCache n) := by
  have hkeys := runCalls_sameKeys pre _ sameKeys_initial
  refine ⟨?_, ?_, ?_, ?_⟩
  · rw [runCalls_append]
    exact (runCalls_persists post _ hkeys n).1
  · rw [runCalls_append]
    exact (runCalls_persists post _ hkeys n).2
  · intro done rest net retries honce
    exact batchCallbacks_keeps _ hkeys net retries n done rest honce
  · intro snapshot s c hlist hfull
    exact Call.runAt_untouched snapshot s c n hlist hfull

/-- C6 as amended, for pikachu fetched by a first call: a later batch and a later detail call
whose network would answer with other bodies leave both of its entries as they were. -/
theorem cache_entries_persist_witness :
    (runCalls Session.initial
        ([.details "pikachu" (fun _ => some pikachu) 3] ++
          [.batch ["raichu", "pikachu"] (fun _ _ => some (bodyOf "raichu" 26 "electric")) 3,
           .details "pikachu" (fun _ => some pikachuAgain) 3])).pokemonListCache
        "pikachu" = some (minimalOf pikachu) ∧
      (runCalls Session.initial
        ([.details "pikachu" (fun _ => some pikachu) 3] ++
          [.batch ["raichu", "pikachu"] (fun _ _ => some (bodyOf "raichu" 26 "electric")) 3,
           .details "pikachu" (fun _ => some pikachuAgain) 3])).pokemonFullCache
        "pikachu" = some pikachu :=
  ⟨(cache_entries_persist [.details "pikachu" (fun _ => some pikachu) 3] _ "pikachu").1 _ rfl,
    (cache_entries_persist [.details "pikachu" (fun _ => some pikachu) 3] _ "pikachu").2.1 _ rfl⟩

/-- C6 as stated fails when a fetch of the name is in flight while another completes. A
`fetchPokemonDetails("pikachu")` and a batch for pikachu are both called on the empty caches;
the detail call is the first to succeed and stores `pikachu` in both caches; the batch then
receives `pikachuAgain` and replaces both entries. The same inside one batch that lists pikachu
twice: the entries the first callback stores are replaced by those of the second. -/
theorem cache_entry_replaced_in_flight :
    detailsDone.pokemonListCache "pikachu" = some (minimalOf pikachu) ∧
      detailsDone.pokemonFullCache "pikachu" = some pikachu ∧
      detailsThenBatchDone.pokemonListCache "pikachu" = some (minimalOf pikachuAgain) ∧
      detailsThenBatchDone.pokemonFullCache "pikachu" = some pikachuAgain ∧
      minimalOf pikachuAgain ≠ minimalOf pikachu ∧
      pikachuAgain ≠ pikachu ∧
      (batchCallback Session.initial "pikachu" (twice 0) 3 Session.initial).2.pokemonListCache
        "pikachu" = some (minimalOf pikachu) ∧
      (fetchPokemonMinimalDetailsBatch Session.initial ["pikachu", "pikachu"] twice
        3).2.pokemonListCache "pikachu" = some (minimalOf pikachuAgain) ∧
      (fetchPokemonMinimalDetailsBatch Session.initial ["pikachu", "pikachu"] twice
        3).2.pokemonFullCache "pikachu" = some pikachuAgain := by
  decide

/-! ### C7: the evolution-chain walk -/

theorem walkChain_path : ∀ root, FirstBranchPath root (walkChain root)
  | .mk species [] => by rw [walkChain]; exact .last species
  | .mk species (next :: others) => by
    rw [walkChain]; exact .step species next others _ (walkChain_path next)

theorem firstBranchPath_unique : ∀ root path, FirstBranchPath root path → path = walkChain root := by
  intro root path h
  induction h with
  | last species => rw [walkChain]
  | step species next others path _ ih => rw [walkChain, ih]

/-- C7. On every chain structure the walk of `displayPokemonDetails` returns the species names
along the path from the root through the first element of `evolves_to` at each node, down to a
node without `evolves_to`, and nothing else is such a path; `A → B → C` gives `["A","B","C"]`
and a root without `evolves_to` gives `["A"]`. -/
theorem walkChain_first_branch (root : ChainNode) :
    FirstBranchPath root (walkChain root) ∧
      (∀ path, FirstBranchPath root path → path = walkChain root) ∧
      walkChain (.mk "A" [.mk "B" [.mk "C" []]]) = ["A", "B", "C"] ∧
      walkChain (.mk "A" []) = ["A"] :=
  ⟨walkChain_path root, firstBranchPath_unique root, by simp [walkChain], by simp [walkChain]⟩

/-! ### C8: the search filter -/

theorem startsWithChars_iff : ∀ text pattern : List Char,
    startsWithChars text pattern = true ↔ pattern <+: text
  | _, [] => by simp [startsWithChars]
  | [], p :: pattern => by simp [startsWithChars]
  | c :: text, p :: pattern => by
    rw [startsWithChars, Bool.and_eq_true, startsWithChars_iff text pattern, List.cons_prefix_cons,
      beq_iff_eq]
    exact ⟨fun h => ⟨h.1.symm, h.2⟩, fun h => ⟨h.1.symm, h.2⟩⟩

theorem includesChars_iff (pattern : List Char) : ∀ text : List Char,
    includesChars text pattern = true ↔ pattern <:+: text
  | [] => by
    simp only [includesChars, startsWithChars_iff]
    constructor
    · exact fun h => h.isInfix
    · intro h; rw [List.infix_nil] at h; subst h; exact List.prefix_refl _
  | c :: text => by
    simp only [includesChars, Bool.or_eq_true, startsWithChars_iff, includesChars_iff pattern text,
      List.infix_cons_iff]

theorem includes_iff (name searchTerm : String) :
    includes name searchTerm = true ↔ searchTerm.data <:+: name.data :=
  includesChars_iff _ _

/-- C8. The list the search handler keeps is the sub-sequence of the catalog made of the entries
whose name contains the lowercased input: it is a sub-sequence of the catalog in catalog order,
each of its entries has such a name, and each entry with such a name occurs in it as many times
as in the catalog; `"char"`, which lowercasing leaves alone, against charmander, charmeleon,
squirtle keeps the first two. -/
theorem filteredPokemon_is_matching_subsequence (toLowerCase : String → String)
    (pokemonList : List Entry) (value : String) :
    (filteredPokemon toLowerCase pokemonList value).Sublist pokemonList ∧
      (∀ pokemon ∈ filteredPokemon toLowerCase pokemonList value,
        (toLowerCase value).data <:+: pokemon.name.data) ∧
      (∀ pokemon, (toLowerCase value).data <:+: pokemon.name.data →
        (filteredPokemon toLowerCase pokemonList value).count pokemon =
          pokemonList.count pokemon) ∧
      (toLowerCase "char" = "char" →
        filteredPokemon toLowerCase
            [⟨"charmander", "pokemon/4/"⟩, ⟨"charmeleon", "pokemon/5/"⟩, ⟨"squirtle", "pokemon/7/"⟩]
            "char" =
          [⟨"charmander", "pokemon/4/"⟩, ⟨"charmeleon", "pokemon/5/"⟩]) := by
  refine ⟨List.filter_sublist _, ?_, ?_, ?_⟩
  · intro pokemon hmem
    exact (includes_iff _ _).mp (List.mem_filter.mp hmem).2
  · intro pokemon hmatch
    simp only [filteredPokemon]
    rw [List.count_filter]
    exact (includes_iff _ _).mpr hmatch
  · intro hlower
    simp only [filteredPokemon, hlower]
    decide

/-! ### C9: failures in `displayPokemonDetails` -/

theorem fetchEvolutionData_absorbs (s : Session) (name : String) (net : DetailNet)
    (hfail : (fetchPokemonSpecies s name net.species defaultRetries).1 = .thrown ∨
      ∃ speciesData s2,
        fetchPokemonSpecies s name net.species defaultRetries = (.value speciesData, s2) ∧
        (fetchEvolutionChain s2 speciesData.evolutionChainUrl net.chain defaultRetries).1 =
          .thrown) :
    (fetchEvolutionData s name net).1 = none := by
  unfold fetchEvolutionData
  rcases hfail with h | ⟨speciesData, s2, hs, hc⟩
  · generalize fetchPokemonSpecies s name net.species defaultRetries = r at h
    obtain ⟨out, s1⟩ := r
    simp only at h
    subst h
    rfl
  · rw [hs]
    simp only
    generalize fetchEvolutionChain s2 speciesData.evolutionChainUrl net.chain defaultRetries = r
      at hc
    obtain ⟨out, s3⟩ := r
    simp only at hc
    subst hc
    rfl

/-- C9. On a page that has the modal and its content element, as the page of the application
does: when the detail fetch of `displayPokemonDetails` succeeds and the species fetch throws
after its retries, or the species fetch succeeds and the evolution-chain fetch throws after its
retries, nothing is thrown and the modal is shown with the fetched detail and an empty list of
evolutions; when the detail fetch itself throws after its retries, the run ends with the alert
and shows nothing. -/
theorem displayPokemonDetails_failures (page : Page) (s : Session) (name : String)
    (net : DetailNet) (hmodal : page.pokemonModal = true) (hcontent : page.modalContent = true) :
    (∀ pokemonDetails s1,
        fetchPokemonDetails s name net.details defaultRetries = (.value pokemonDetails, s1) →
        ((fetchPokemonSpecies s1 name net.species defaultRetries).1 = .thrown ∨
          ∃ speciesData s2,
            fetchPokemonSpecies s1 name net.species defaultRetries = (.value speciesData, s2) ∧
            (fetchEvolutionChain s2 speciesData.evolutionChainUrl net.chain defaultRetries).1 =
              .thrown) →
        displayPokemonDetails page s name net =
          (.shown { pokemonDetails := pokemonDetails, evolutions := [], evolutionDetails := [] },
            (fetchEvolutionData s1 name net).2)) ∧
      (∀ s1, fetchPokemonDetails s name net.details defaultRetries = (.thrown, s1) →
        displayPokemonDetails page s name net = (.alerted name, s1)) := by
  constructor
  · intro pokemonDetails s1 hdetails hfail
    have hnone := fetchEvolutionData_absorbs s1 name net hfail
    simp only [displayPokemonDetails, hdetails, hmodal, hcontent, hnone]
    simp [evolutionCallbacks]
  · intro s1 hdetails
    simp only [displayPokemonDetails, hdetails]

/-- C9, for pikachu on such a page: with the species resource down, and with the chain resource
down, the modal is shown with no evolutions; with the detail resource down the run ends with
the alert. -/
theorem displayPokemonDetails_failures_witness :
    hostPage.pokemonModal = true ∧ hostPage.modalContent = true ∧
      (displayPokemonDetails hostPage Session.initial "pikachu" speciesDown).1 =
        .shown { pokemonDetails := pikachu, evolutions := [], evolutionDetails := [] } ∧
      (displayPokemonDetails hostPage Session.initial "pikachu" chainDown).1 =
        .shown { pokemonDetails := pikachu, evolutions := [], evolutionDetails := [] } ∧
      (displayPokemonDetails hostPage Session.initial "pikachu" allDown).1 =
        .alerted "pikachu" :=
  ⟨rfl, rfl,
    congrArg Prod.fst
      ((displayPokemonDetails_failures hostPage Session.initial "pikachu" speciesDown rfl rfl).1
        pikachu (fetchPokemonDetails Session.initial "pikachu" speciesDown.details 3).2 rfl
        (Or.inl rfl)),
    congrArg Prod.fst
      ((displayPokemonDetails_failures hostPage Session.initial "pikachu" chainDown rfl rfl).1
        pikachu (fetchPokemonDetails Session.initial "pikachu" chainDown.details 3).2 rfl
        (Or.inr ⟨_, _, rfl, rfl⟩)),
    congrArg Prod.fst
      ((displayPokemonDetails_failures hostPage Session.initial "pikachu" allDown rfl rfl).2
        (fetchPokemonDetails Session.initial "pikachu" allDown.details 3).2 rfl)⟩

/-! ### C10: the loads of `displayPokemonList` -/

theorem take_slice (pokemonList : List Entry) (c b : Nat) :
    pokemonList.take c ++ (pokemonList.drop c).take b =
      pokemonList.take (c + min b (pokemonList.length - c)) := by
  rw [← List.take_add, List.take_eq_take]
  omega

theorem firstLoad_covered (s : Session) (pokemonList : List Entry)
    (nets : Nat → Nat → Nat → Option PokemonData) :
    ∃ st, firstLoad s pokemonList nets = .value st ∧ Covered pokemonList 0 st := by
  obtain ⟨hret, _, hnames⟩ := loadPokemonBatch_eq s pokemonList 0 6 (nets 0)
  refine ⟨{ loadedCount := 0 + min 6 (pokemonList.length - 0), isLoading := false,
             session := (loadPokemonBatch s pokemonList 0 6 (nets 0)).session,
             cards := (loadPokemonBatch s pokemonList 0 6 (nets 0)).cards,
             requested := [(loadPokemonBatch s pokemonList 0 6 (nets 0)).names], loads := 1 },
    by simp only [firstLoad, hret], rfl, ?_, ?_, rfl, Nat.le_refl 1, ?_, ?_⟩
  · show 0 + min 6 (pokemonList.length - 0) = _
    omega
  · show [(loadPokemonBatch s pokemonList 0 6 (nets 0)).names].flatten =
      (pokemonList.take (0 + min 6 (pokemonList.length - 0))).map _
    rw [hnames, ← take_slice]
    simp
  · show 0 + min 6 (pokemonList.length - 0) = min pokemonList.length (6 + 20 * (1 - 1))
    omega
  · show 20 * 1 < _
    omega

theorem loadMore_covered (pokemonList : List Entry)
    (nets : Nat → Nat → Nat → Option PokemonData) (k : Nat) (st : ListState)
    (h : Covered pokemonList k st) : Covered pokemonList (k + 1) (loadMore pokemonList nets st) := by
  obtain ⟨hload, hcount, hreq, hlen, hone, hcount2, hbound⟩ := h
  by_cases hlt : st.loadedCount < pokemonList.length
  · obtain ⟨hret, _, hnames⟩ :=
      loadPokemonBatch_eq st.session pokemonList st.loadedCount 20 (nets st.loads)
    have hstep : loadMore pokemonList nets st =
        { loadedCount := st.loadedCount + min 20 (pokemonList.length - st.loadedCount),
          isLoading := false,
          session := (loadPokemonBatch st.session pokemonList st.loadedCount 20
            (nets st.loads)).session,
          cards := st.cards ++ (loadPokemonBatch st.session pokemonList st.loadedCount 20
            (nets st.loads)).cards,
          requested := st.requested ++ [(loadPokemonBatch st.session pokemonList st.loadedCount 20
            (nets st.loads)).names],
          loads := st.loads + 1 } := by
      simp [loadMore, hlt, hload, hret]
    rw [hstep]
    refine ⟨rfl, ?_, ?_, ?_, ?_, ?_, ?_⟩
    · show st.loadedCount + min 20 (pokemonList.length - st.loadedCount) = _
      omega
    · show (st.requested ++ [_]).flatten = (pokemonList.take (st.loadedCount + _)).map _
      rw [List.flatten_concat, hreq, hnames, ← take_slice, List.map_append]
    · show (st.requested ++ [_]).length = st.loads + 1
      simp [hlen]
    · show 1 ≤ st.loads + 1
      omega
    · show st.loadedCount + min 20 (pokemonList.length - st.loadedCount) =
        min pokemonList.length (6 + 20 * (st.loads + 1 - 1))
      omega
    · show 20 * (st.loads + 1) < _
      omega
  · have hstep : loadMore pokemonList nets st = st := by simp [loadMore, hlt]
    rw [hstep]
    refine ⟨hload, ?_, hreq, hlen, hone, hcount2, hbound⟩
    omega

theorem handleTrigger_covered (pokemonList : List Entry)
    (nets : Nat → Nat → Nat → Option PokemonData) (k : Nat) (st : ListState) (t : Trigger)
    (h : Covered pokemonList k st) :
    Covered pokemonList (k + if t.asks then 1 else 0) (handleTrigger pokemonList nets st t) := by
  unfold handleTrigger
  by_cases ht : t.asks = true
  · simp only [ht, if_true]; exact loadMore_covered pokemonList nets k st h
  · simp only [ht, if_false]; exact h

theorem foldl_handleTrigger_covered (pokemonList : List Entry)
    (nets : Nat → Nat → Nat → Option PokemonData) :
    ∀ (events : List Trigger) (k : Nat) (st : ListState), Covered pokemonList k st →
      Covered pokemonList (k + events.countP Trigger.asks)
        (events.foldl (handleTrigger pokemonList nets) st) := by
  intro events
  induction events with
  | nil => intro k st h; exact h
  | cons t rest ih =>
    intro k st h
    have := ih _ _ (handleTrigger_covered pokemonList nets k st t h)
    rw [List.countP_cons, List.foldl_cons]
    rwa [Nat.add_assoc, Nat.add_comm (if t.asks = true then 1 else 0)] at this

theorem handleTrigger_done (pokemonList : List Entry)
    (nets : Nat → Nat → Nat → Option PokemonData) (st : ListState) (t : Trigger)
    (h : st.loadedCount = pokemonList.length) : handleTrigger pokemonList nets st t = st := by
  unfold handleTrigger loadMore
  simp [h]

/-- C10. For every catalog `L` and whatever the network answers, `displayPokemonList` after its
first load of 6 and any run of events, `k` of which ask for more, has a cursor equal to
`min |L| (6 + 20 k)`, hence never above `|L|`; the slices it asked for, put end to end, are the
names of the first `cursor` entries of `L`; it has made at most `|L| / 20 + 2` loads; and once
`6 + 20 k` reaches `|L|` the cursor is `|L|`, the slices put end to end are the names of `L`, and
no later event loads anything. -/
theorem displayPokemonList_covers (s : Session) (pokemonList : List Entry)
    (nets : Nat → Nat → Nat → Option PokemonData) (events : List Trigger) :
    ∃ st, displayPokemonList s pokemonList nets events = .value st ∧
      st.loadedCount = min pokemonList.length (6 + 20 * events.countP Trigger.asks) ∧
      st.loadedCount ≤ pokemonList.length ∧
      st.requested.flatten = (pokemonList.take st.loadedCount).map (fun pokemon => pokemon.name) ∧
      st.requested.length = st.loads ∧
      st.loads ≤ pokemonList.length / 20 + 2 ∧
      (pokemonList.length ≤ 6 + 20 * events.countP Trigger.asks →
        st.loadedCount = pokemonList.length ∧
        st.requested.flatten = pokemonList.map (fun pokemon => pokemon.name) ∧
        ∀ t, handleTrigger pokemonList nets st t = st) := by
  obtain ⟨st0, hfirst, hcov0⟩ := firstLoad_covered s pokemonList nets
  have hcov := foldl_handleTrigger_covered pokemonList nets events 0 st0 hcov0
  rw [Nat.zero_add] at hcov
  obtain ⟨_, hcount, hreq, hlen, _, _, hbound⟩ := hcov
  refine ⟨_, by simp only [displayPokemonList, hfirst], hcount, by omega, hreq, hlen, by omega, ?_⟩
  intro henough
  have hall : (events.foldl (handleTrigger pokemonList nets) st0).loadedCount =
      pokemonList.length := by omega
  refine ⟨hall, ?_, fun t => handleTrigger_done pokemonList nets _ t hall⟩
  rw [hreq, hall, List.take_length]

/-- C10, for the catalog of twenty entries and one click after the first load: the cursor is
20, the two slices asked for are the twenty names in order, and a further event loads
nothing. -/
theorem displayPokemonList_covers_witness :
    ∃ st, displayPokemonList Session.initial firstTwenty (fun _ => secondFails)
        [.sentinel false, .click] = .value st ∧
      st.loadedCount = 20 ∧
      st.requested.flatten = firstTwenty.map (fun pokemon => pokemon.name) ∧
      ∀ t, handleTrigger firstTwenty (fun _ => secondFails) st t = st := by
  obtain ⟨st, hrun, _, _, _, _, _, hdone⟩ :=
    displayPokemonList_covers Session.initial firstTwenty (fun _ => secondFails)
      [.sentinel false, .click]
  exact ⟨st, hrun, hdone (by decide)⟩

end PokeGuide
